import Mathlib

/-!
Verification of the Kaleidoscope-style tokenizer and recursive-descent
parser in `src/Silly/main.c`.

The embedding models:
* the character-level lexer `gettok` (with its persistent lookahead
  character `LastChar` and the shared buffers `IdentifierStr` / `NumVal`),
* the operator-precedence table installed by `main` and
  `GetTokPrecedence`,
* the recursive-descent parser (`ParseNumberExpr`, `ParseParenExpr`,
  `ParseIdentifierExpr`, `ParsePrimary`, `ParseBinOpRHS`,
  `ParseExpression`, `ParsePrototype`, `ParseDefinition`,
  `ParseTopLevelExpr`, `ParseExtern` — the last one is named
  `ParseExternal` here) together with the `Error` diagnostics helper.

Modelling conventions:
* The input stream is a `List Char`; `getchar` returning `EOF` is
  modelled by `Option Char` with `none` for end of input.
* C `int` token values are `Int` (negative sentinels for keywords,
  character ordinals for everything else), exactly as in the source.
* `double NumVal` is modelled as `Rat`, with `strtod` modelled as exact
  decimal parsing (`strtodM` below): the claims under test only concern
  which text is handed to `strtod`, never binary rounding.
* The C code reads the uninitialized stack byte `NumStr[0]` (the number
  buffer is filled starting at index 1).  That indeterminate byte is
  modelled explicitly as the `junk` field of the lexer state: the string
  passed to `strtod` is `junk :: digits`.
* The parser's recursion (unbounded in C, bounded only by the machine
  stack) is modelled with an explicit fuel argument; running out of fuel
  yields the distinguished result `PRes.fuelOut`, which is never
  produced when the fuel exceeds the recursion depth of the input.
* Failure (`NULL` in C) is `PRes.err`; the lines printed to `stderr` by
  `Error` are accumulated in the `log` field of the parser state.
-/

namespace Silly

/-! ## Character classification (C `ctype`, ASCII / C locale) -/

/-- C `isspace`: space, tab, newline, vertical tab, form feed, carriage
return. -/
def isspace (c : Char) : Bool := decide (c.toNat = 32 ∨ (9 ≤ c.toNat ∧ c.toNat ≤ 13))

/-- C `isalpha` in the C locale: `[a-zA-Z]`. -/
def isalpha (c : Char) : Bool :=
  decide ((97 ≤ c.toNat ∧ c.toNat ≤ 122) ∨ (65 ≤ c.toNat ∧ c.toNat ≤ 90))

/-- C `isdigit`: `[0-9]`. -/
def isdigit (c : Char) : Bool := decide (48 ≤ c.toNat ∧ c.toNat ≤ 57)

/-- C `isalnum` in the C locale: `[a-zA-Z0-9]`. -/
def isalnum (c : Char) : Bool := isalpha c || isdigit c

/-- The space of `isspace` applied to the lexer's pending character:
`isspace(EOF)` is false. -/
def lcIsSpace : Option Char → Bool
  | some c => isspace c
  | none => false

/-! ## A model of C `strtod` on decimal input

`strtod` is a C library routine, not part of the repository; we model
its documented behaviour on decimal forms (optional leading whitespace,
optional sign, digits with an optional fractional part and an optional
decimal exponent; if no digits can be consumed there is no conversion
and the result is `0.0`).  Hexadecimal floats, `inf` and `nan` never
arise from the lexer's number buffer and are not modelled.  Values are
exact rationals. -/

/-- Decimal digit string to natural number. -/
def digitsToNat (ds : List Char) : Nat :=
  ds.foldl (fun a c => a * 10 + (c.toNat - 48)) 0

/-- Model of C `strtod` on decimal input (see the section comment).
The value is assembled with integer arithmetic and a single `mkRat`:
`sign * (ipart.fpart) * 10 ^ exponent`, or `0` when no digits can be
consumed (no conversion). -/
def strtodM (s : List Char) : Rat :=
  let s1 := s.dropWhile (fun c => isspace c)
  let sign : Int := match s1 with
    | '-' :: _ => -1
    | _ => 1
  let s2 : List Char := match s1 with
    | '-' :: r => r
    | '+' :: r => r
    | r => r
  let ip := s2.takeWhile isdigit
  let s3 := s2.dropWhile isdigit
  let fp : List Char := match s3 with
    | '.' :: r => r.takeWhile isdigit
    | _ => []
  let s4 : List Char := match s3 with
    | '.' :: r => r.dropWhile isdigit
    | r => r
  if ip.length = 0 ∧ fp.length = 0 then 0
  else
    let expMag : List Char → Int := fun d => (digitsToNat (d.takeWhile isdigit) : Int)
    let expVal : Int := match s4 with
      | 'e' :: '+' :: d => if (d.takeWhile isdigit).length = 0 then 0 else expMag d
      | 'e' :: '-' :: d => if (d.takeWhile isdigit).length = 0 then 0 else -(expMag d)
      | 'e' :: d => if (d.takeWhile isdigit).length = 0 then 0 else expMag d
      | 'E' :: '+' :: d => if (d.takeWhile isdigit).length = 0 then 0 else expMag d
      | 'E' :: '-' :: d => if (d.takeWhile isdigit).length = 0 then 0 else -(expMag d)
      | 'E' :: d => if (d.takeWhile isdigit).length = 0 then 0 else expMag d
      | _ => 0
    let m : Int := sign * (digitsToNat ip * 10 ^ fp.length + digitsToNat fp)
    if 0 ≤ expVal then mkRat (m * 10 ^ expVal.toNat) (10 ^ fp.length)
    else mkRat m (10 ^ fp.length * 10 ^ (-expVal).toNat)

/-! ## Tokens -/

def tok_eof : Int := -1
def tok_def : Int := -2
/-- `tok_extern` in the source. -/
def tok_external : Int := -3
def tok_identifier : Int := -4
def tok_number : Int := -5

/-- A single-character token is the character's own ordinal value. -/
def chTok (c : Char) : Int := (c.toNat : Int)

/-- C `isascii` on a token value. -/
def isasciiTok (t : Int) : Bool := decide (0 ≤ t ∧ t ≤ 127)

/-! ## Lexer state and `gettok` -/

/-- The lexer's persistent state: the pending lookahead character
`LastChar` (`none` = `EOF`), the remaining input stream, and the shared
buffers `IdentifierStr` and `NumVal`.  The `junk` field models the
indeterminate stack byte that the source leaves at `NumStr[0]` (the
number buffer is filled starting at index 1). -/
structure LexState where
  lastChar : Option Char
  input : List Char
  identifierStr : String
  numVal : Rat
  junk : Char
deriving DecidableEq

/-- The whitespace-skipping loop `while (isspace(LastChar)) LastChar = getchar();`. -/
def skipSpaces (lc : Option Char) : List Char → Option Char × List Char
  | [] => if lcIsSpace lc then (none, []) else (lc, [])
  | c :: rest => if lcIsSpace lc then skipSpaces (some c) rest else (lc, c :: rest)

/-- The identifier loop `while (isalnum((LastChar = getchar()))) ...`:
returns the consumed alphanumeric run, the new `LastChar`, and the rest
of the input. -/
def takeAlnum : List Char → List Char × Option Char × List Char
  | [] => ([], none, [])
  | c :: rest =>
    if isalnum c then
      let r := takeAlnum rest
      (c :: r.1, r.2.1, r.2.2)
    else ([], some c, rest)

/-- The number loop's continuation `while (isdigit(LastChar) || LastChar == '.')`. -/
def takeNum : List Char → List Char × Option Char × List Char
  | [] => ([], none, [])
  | c :: rest =>
    if isdigit c || c = '.' then
      let r := takeNum rest
      (c :: r.1, r.2.1, r.2.2)
    else ([], some c, rest)

/-- The comment loop `do LastChar = getchar(); while (LastChar != EOF && LastChar != '\n' && LastChar != '\r');`. -/
def skipComment : List Char → Option Char × List Char
  | [] => (none, [])
  | c :: rest => if c = '\n' ∨ c = '\r' then (some c, rest) else skipComment rest

/-- `gettok`, with an explicit fuel bound for the self-recursive comment
retry (`return gettok();`).  Each retry strictly consumes input, so any
fuel above `input.length` is enough; `gettok` below instantiates the
fuel accordingly and the fuel-exhaustion branch is unreachable. -/
def gettokF : Nat → LexState → Int × LexState
  | 0, st => (tok_eof, st)
  | fuel + 1, st =>
    let s := skipSpaces st.lastChar st.input
    match s.1 with
    | none => (tok_eof, { st with lastChar := none, input := s.2 })
    | some c =>
      if isalpha c then
        -- identifier: [a-zA-Z][a-zA-Z0-9]*
        let t := takeAlnum s.2
        let name := String.mk (c :: t.1)
        let st' := { st with lastChar := t.2.1, input := t.2.2, identifierStr := name }
        if name = "def" then (tok_def, st')
        else if name = "extern" then (tok_external, st')
        else (tok_identifier, st')
      else if isdigit c || c = '.' then
        -- Number: [0-9.]+ — the buffer is filled from index 1, so the
        -- string handed to strtod starts with the indeterminate byte.
        let t := takeNum s.2
        (tok_number,
          { st with lastChar := t.2.1, input := t.2.2,
                    numVal := strtodM (st.junk :: c :: t.1) })
      else if c = '#' then
        -- Comment until end of line, then retry unless at EOF.
        let q := skipComment s.2
        match q.1 with
        | none => (tok_eof, { st with lastChar := none, input := q.2 })
        | some c2 => gettokF fuel { st with lastChar := some c2, input := q.2 }
      else
        -- Otherwise, just return the character as its ascii value.
        match s.2 with
        | [] => (chTok c, { st with lastChar := none, input := [] })
        | d :: rest => (chTok c, { st with lastChar := some d, input := rest })

/-- `gettok`: one call to the lexer. -/
def gettok (st : LexState) : Int × LexState := gettokF (st.input.length + 1) st

/-- The lexer's state at program start: `LastChar = ' '`, the global
buffers zero-initialized, about to read `input`.  `junk` is the
indeterminate byte at `NumStr[0]`. -/
def initLex (junk : Char) (input : List Char) : LexState :=
  ⟨some ' ', input, "", 0, junk⟩

/-- The stream of `(token, IdentifierStr, NumVal)` triples produced by
repeated `gettok` calls, up to and including the first `tok_eof` (or
truncated at `n` tokens). -/
def lexAll : Nat → LexState → List (Int × String × Rat)
  | 0, _ => []
  | n + 1, st =>
    let r := gettok st
    if r.1 = tok_eof then [(r.1, r.2.identifierStr, r.2.numVal)]
    else (r.1, r.2.identifierStr, r.2.numVal) :: lexAll n r.2

/-! ## Abstract syntax tree

`NumberExprAST`, `VariableExprAST`, `BinaryExprAST` and `CallExprAST`
(the `void *` nodes of the source) as one inductive; `PrototypeAST` and
`FunctionAST` as structures.  `NumArgs` fields are the list lengths. -/

inductive Expr where
  | num (val : Rat)
  | var (name : String)
  | binary (op : Char) (lhs rhs : Expr)
  | call (callee : String) (args : List Expr)

structure PrototypeAST where
  name : String
  args : List String
deriving DecidableEq

structure FunctionAST where
  proto : PrototypeAST
  body : Expr

/-! ## Parser state, precedence table, error plumbing -/

/-- Parser state: `CurTok`, the lexer state behind it, and the lines
printed to `stderr` by the `Error` helper. -/
structure PState where
  curTok : Int
  lex : LexState
  log : List String
deriving DecidableEq

/-- `getNextToken`: reads another token from the lexer and updates
`CurTok`. -/
def getNextToken (st : PState) : PState :=
  let r := gettok st.lex
  { st with curTok := r.1, lex := r.2 }

/-- The operator table installed by `main`:
`BinopPrecedenceOperators = "<+-*"`,
`BinopPrecedencePrecedence = {10, 20, 30, 40}`. -/
def binopTable : List (Char × Int) := [('<', 10), ('+', 20), ('-', 30), ('*', 40)]

/-- The linear scan in `GetTokPrecedence` over the two parallel arrays. -/
def precScan : List (Char × Int) → Int → Int
  | [], _ => -1
  | (op, p) :: rest, t => if t = chTok op then (if p ≤ 0 then -1 else p) else precScan rest t

/-- `GetTokPrecedence`: precedence of the pending binary-operator token,
`-1` when `CurTok` is not a declared binary operator. -/
def GetTokPrecedence (t : Int) : Int :=
  if ¬ isasciiTok t then -1 else precScan binopTable t

/-- The `Error` helper prints one line `Error: <Str>` to `stderr` (and
returns `NULL`, which corresponds to the `PRes.err` result below). -/
def emitError (msg : String) (st : PState) : PState :=
  { st with log := st.log ++ ["Error: " ++ msg] }

/-- Result of a parse call: `ok` is a non-`NULL` AST node, `err` is the
`NULL` returned on a parse error, and `fuelOut` is the artifact result
when the explicit recursion budget runs out (never reached with enough
fuel). -/
inductive PRes (α : Type) where
  | ok (a : α)
  | err
  | fuelOut
deriving DecidableEq

/-! ## Recursive-descent parser -/

/-- `ParseNumberExpr`: builds a `NumberExprAST` from `NumVal` and
advances. -/
def ParseNumberExpr (st : PState) : PRes Expr × PState :=
  (.ok (.num st.lex.numVal), getNextToken st)

mutual

/-- `ParseParenExpr`: `'(' expression ')'`; returns the inner node. -/
def ParseParenExpr : Nat → PState → PRes Expr × PState
  | 0, st => (.fuelOut, st)
  | fuel + 1, st =>
    let st1 := getNextToken st  -- eat (.
    match ParseExpression fuel st1 with
    | (.ok v, st2) =>
      if st2.curTok = chTok ')' then (.ok v, getNextToken st2)  -- eat ).
      else (.err, emitError "expected ')'" st2)
    | (.err, st2) => (.err, st2)
    | (.fuelOut, st2) => (.fuelOut, st2)

/-- `ParseIdentifierExpr`: a bare identifier yields `VariableExprAST`;
`identifier '(' ... ')'` yields `CallExprAST`. -/
def ParseIdentifierExpr : Nat → PState → PRes Expr × PState
  | 0, st => (.fuelOut, st)
  | fuel + 1, st =>
    let idName := st.lex.identifierStr
    let st1 := getNextToken st  -- eat identifier.
    if st1.curTok ≠ chTok '(' then (.ok (.var idName), st1)  -- Simple variable ref.
    else
      let st2 := getNextToken st1  -- eat (
      if st2.curTok = chTok ')' then (.ok (.call idName []), getNextToken st2)  -- eat ).
      else
        match ParseCallArgs fuel st2 [] with
        | (.ok args, st3) => (.ok (.call idName args), getNextToken st3)  -- eat ).
        | (.err, st3) => (.err, st3)
        | (.fuelOut, st3) => (.fuelOut, st3)

/-- The `while (1)` argument-list loop inside `ParseIdentifierExpr`:
stops (without consuming) at `')'`, takes `','` between arguments. -/
def ParseCallArgs : Nat → PState → List Expr → PRes (List Expr) × PState
  | 0, st, _ => (.fuelOut, st)
  | fuel + 1, st, acc =>
    match ParseExpression fuel st with
    | (.ok arg, st1) =>
      let acc' := acc ++ [arg]
      if st1.curTok = chTok ')' then (.ok acc', st1)
      else if st1.curTok ≠ chTok ',' then
        (.err, emitError "Expected ')' or ',' in argument list" st1)
      else ParseCallArgs fuel (getNextToken st1) acc'
    | (.err, st1) => (.err, st1)
    | (.fuelOut, st1) => (.fuelOut, st1)

/-- `ParsePrimary`: identifier-expr, number-expr or paren-expr. -/
def ParsePrimary : Nat → PState → PRes Expr × PState
  | 0, st => (.fuelOut, st)
  | fuel + 1, st =>
    if st.curTok = tok_identifier then ParseIdentifierExpr fuel st
    else if st.curTok = tok_number then ParseNumberExpr st
    else if st.curTok = chTok '(' then ParseParenExpr fuel st
    else (.err, emitError "unknown token when expecting an expression" st)

/-- `ParseBinOpRHS`: the operator-precedence climbing loop (the `while
(1)` loop is the tail call with the merged node as the new LHS). -/
def ParseBinOpRHS : Nat → Int → Expr → PState → PRes Expr × PState
  | 0, _, _, st => (.fuelOut, st)
  | fuel + 1, exprPrec, lhs, st =>
    let tokPrec := GetTokPrecedence st.curTok
    if tokPrec < exprPrec then (.ok lhs, st)
    else
      let binOp := st.curTok
      let st1 := getNextToken st  -- eat binop
      match ParsePrimary fuel st1 with
      | (.ok rhs0, st2) =>
        let nextPrec := GetTokPrecedence st2.curTok
        if tokPrec < nextPrec then
          match ParseBinOpRHS fuel (tokPrec + 1) rhs0 st2 with
          | (.ok rhs1, st3) =>
            ParseBinOpRHS fuel exprPrec (.binary (Char.ofNat binOp.toNat) lhs rhs1) st3
          | (.err, st3) => (.err, st3)
          | (.fuelOut, st3) => (.fuelOut, st3)
        else ParseBinOpRHS fuel exprPrec (.binary (Char.ofNat binOp.toNat) lhs rhs0) st2
      | (.err, st2) => (.err, st2)
      | (.fuelOut, st2) => (.fuelOut, st2)

/-- `ParseExpression`: `primary binoprhs`. -/
def ParseExpression : Nat → PState → PRes Expr × PState
  | 0, st => (.fuelOut, st)
  | fuel + 1, st =>
    match ParsePrimary fuel st with
    | (.ok lhs, st1) => ParseBinOpRHS fuel 0 lhs st1
    | (.err, st1) => (.err, st1)
    | (.fuelOut, st1) => (.fuelOut, st1)

end

/-- The `while (getNextToken() == tok_identifier)` parameter-name loop
inside `ParsePrototype`. -/
def ParseProtoArgs : Nat → PState → List String → PRes (List String) × PState
  | 0, st, _ => (.fuelOut, st)
  | fuel + 1, st, acc =>
    let st1 := getNextToken st
    if st1.curTok = tok_identifier then
      ParseProtoArgs fuel st1 (acc ++ [st1.lex.identifierStr])
    else (.ok acc, st1)

/-- `ParsePrototype`: `id '(' id* ')'`. -/
def ParsePrototype : Nat → PState → PRes PrototypeAST × PState
  | 0, st => (.fuelOut, st)
  | fuel + 1, st =>
    if st.curTok ≠ tok_identifier then
      (.err, emitError "Expected function name in prototype" st)
    else
      let fnName := st.lex.identifierStr
      let st1 := getNextToken st
      if st1.curTok ≠ chTok '(' then (.err, emitError "Expected '(' in prototype" st1)
      else
        match ParseProtoArgs fuel st1 [] with
        | (.ok args, st2) =>
          if st2.curTok ≠ chTok ')' then (.err, emitError "Expected ')' in prototype" st2)
          else (.ok ⟨fnName, args⟩, getNextToken st2)  -- success; eat ')'.
        | (.err, st2) => (.err, st2)
        | (.fuelOut, st2) => (.fuelOut, st2)

/-- `ParseDefinition`: `'def' prototype expression`. -/
def ParseDefinition : Nat → PState → PRes FunctionAST × PState
  | 0, st => (.fuelOut, st)
  | fuel + 1, st =>
    let st1 := getNextToken st  -- eat def.
    match ParsePrototype fuel st1 with
    | (.ok proto, st2) =>
      match ParseExpression fuel st2 with
      | (.ok e, st3) => (.ok ⟨proto, e⟩, st3)
      | (.err, st3) => (.err, st3)
      | (.fuelOut, st3) => (.fuelOut, st3)
    | (.err, st2) => (.err, st2)
    | (.fuelOut, st2) => (.fuelOut, st2)

/-- `ParseTopLevelExpr`: an expression wrapped into an anonymous
`FunctionAST` whose prototype is named `__anon_expr` with no
parameters. -/
def ParseTopLevelExpr : Nat → PState → PRes FunctionAST × PState
  | 0, st => (.fuelOut, st)
  | fuel + 1, st =>
    match ParseExpression fuel st with
    | (.ok e, st1) => (.ok ⟨⟨"__anon_expr", []⟩, e⟩, st1)
    | (.err, st1) => (.err, st1)
    | (.fuelOut, st1) => (.fuelOut, st1)

/-- `ParseExtern` in the source: `'extern' prototype`. -/
def ParseExternal : Nat → PState → PRes PrototypeAST × PState
  | 0, st => (.fuelOut, st)
  | fuel + 1, st =>
    let st1 := getNextToken st  -- eat extern.
    ParsePrototype fuel st1

/-- Parser state after `main` primes the first token on the given
input. -/
def initP (junk : Char) (s : String) : PState :=
  let r := gettok (initLex junk s.toList)
  ⟨r.1, r.2, []⟩

/-! ## Error propagation and the diagnostics log

`Error` prints exactly one line `Error: <description>` and returns
`NULL`; every caller propagates the `NULL` upward without printing
anything further.  `ResLog r log log'` relates a parse result to the log
before and after the call: a successful (or fuel-exhausted) call leaves
the log unchanged, a failed call appends exactly one `Error: ` line. -/

/-- A diagnostics line of the form `Error: <description>`. -/
def ErrLine (l : String) : Prop := ∃ d, l = "Error: " ++ d

/-- Log discipline of one parse call (see section comment). -/
def ResLog {α : Type} : PRes α → List String → List String → Prop
  | .err, log, log' => ∃ l, log' = log ++ [l] ∧ ErrLine l
  | .ok _, log, log' => log' = log
  | .fuelOut, log, log' => log' = log

/-! ## Small evaluation lemmas for single-character tokens -/

theorem chTok_lt : chTok '<' = 60 := rfl

theorem chTok_plus : chTok '+' = 43 := rfl

theorem chTok_minus : chTok '-' = 45 := rfl

theorem chTok_star : chTok '*' = 42 := rfl

/-! ## Lexer lemmas -/

theorem isalpha_not_isspace {c : Char} (h : isalpha c = true) : isspace c = false := by
  simp only [isalpha, decide_eq_true_eq] at h
  simp only [isspace, decide_eq_false_iff_not]
  omega

theorem skipSpaces_cons_space (lc : Option Char) (c : Char) (l : List Char)
    (h : lcIsSpace lc = true) : skipSpaces lc (c :: l) = skipSpaces (some c) l := by
  simp [skipSpaces, h]

theorem skipSpaces_stop (lc : Option Char) (l : List Char) (h : lcIsSpace lc = false) :
    skipSpaces lc l = (lc, l) := by
  cases l <;> simp [skipSpaces, h]

theorem takeAlnum_append (cs rest : List Char)
    (h : ∀ x ∈ cs, isalnum x = true)
    (hrest : ∀ d, rest.head? = some d → isalnum d = false) :
    takeAlnum (cs ++ rest) = (cs, rest.head?, rest.tail) := by
  induction cs with
  | nil =>
    cases rest with
    | nil => rfl
    | cons d ds => simp [takeAlnum, hrest d rfl]
  | cons c cs ih =>
    have hc := h c (List.mem_cons_self _ _)
    have ih' := ih (fun x hx => h x (List.mem_cons_of_mem _ hx))
    simp [takeAlnum, hc, ih']

theorem skipSpaces_len (lc : Option Char) (l : List Char) :
    (skipSpaces lc l).2.length ≤ l.length := by
  induction l generalizing lc with
  | nil => simp only [skipSpaces]; split <;> simp
  | cons c r ih =>
    simp only [skipSpaces]
    split
    · exact le_trans (ih (some c)) (by simp)
    · simp

theorem skipComment_some_len {l : List Char} {c : Char} {r : List Char}
    (h : skipComment l = (some c, r)) : r.length < l.length := by
  induction l with
  | nil => simp [skipComment] at h
  | cons a l ih =>
    simp only [skipComment] at h
    split at h
    · simp only [Prod.mk.injEq] at h
      obtain ⟨-, rfl⟩ := h
      simp
    · exact lt_trans (ih h) (by simp)

theorem gettokF_fuel_irrel : ∀ (n : Nat) (st : LexState) (f1 f2 : Nat),
    st.input.length = n → n < f1 → n < f2 → gettokF f1 st = gettokF f2 st := by
  intro n
  induction n using Nat.strong_induction_on with
  | _ n ih =>
    intro st f1 f2 hn h1 h2
    obtain ⟨a, rfl⟩ : ∃ a, f1 = a + 1 := ⟨f1 - 1, by omega⟩
    obtain ⟨b, rfl⟩ : ∃ b, f2 = b + 1 := ⟨f2 - 1, by omega⟩
    simp only [gettokF]
    rcases hs : skipSpaces st.lastChar st.input with ⟨lc1, in1⟩
    have hin1 : in1.length ≤ n := by
      have h3 := skipSpaces_len st.lastChar st.input
      rw [hs] at h3
      simp at h3
      omega
    rcases lc1 with _ | c
    · rfl
    dsimp only
    split_ifs <;>
      first
      | rfl
      | (rcases hq : skipComment in1 with ⟨oc, in2⟩
         rcases oc with _ | c2
         · rfl
         dsimp only
         exact ih in2.length (by have := @skipComment_some_len in1 c2 in2 hq; omega)
           ⟨some c2, in2, st.identifierStr, st.numVal, st.junk⟩ a b rfl
           (by have := @skipComment_some_len in1 c2 in2 hq; omega)
           (by have := @skipComment_some_len in1 c2 in2 hq; omega))

theorem gettokF_space_swap (f : Nat) (a b : Char) (l : List Char) (i : String) (nv : Rat)
    (j : Char) (ha : isspace a = true) (hb : isspace b = true) :
    gettokF (f + 1) ⟨some a, l, i, nv, j⟩ = gettokF (f + 1) ⟨some b, l, i, nv, j⟩ := by
  have hs : skipSpaces (some a) l = skipSpaces (some b) l := by
    cases l <;> simp [skipSpaces, lcIsSpace, ha, hb]
  simp only [gettokF, hs]

theorem skipComment_through_newline (comment rest : List Char)
    (h : ∀ x ∈ comment, ¬(x = '\n' ∨ x = '\r')) :
    skipComment (comment ++ '\n' :: rest) = (some '\n', rest) := by
  induction comment with
  | nil => simp [skipComment]
  | cons a l ih =>
    have ha := h a (List.mem_cons_self _ _)
    simp [skipComment, ha, ih (fun x hx => h x (List.mem_cons_of_mem _ hx))]

theorem skipComment_no_newline (l : List Char) (h : ∀ x ∈ l, ¬(x = '\n' ∨ x = '\r')) :
    skipComment l = (none, []) := by
  induction l with
  | nil => rfl
  | cons a r ih =>
    have ha := h a (List.mem_cons_self _ _)
    simp [skipComment, ha, ih (fun x hx => h x (List.mem_cons_of_mem _ hx))]

/-- Lexing a `'#'` comment line hands the lexer on to the rest of the
stream: the comment retry produces exactly the token (and lexer state)
that lexing `rest` from scratch produces. -/
theorem gettok_comment_prefix (junk : Char) (comment rest : List Char)
    (h : ∀ x ∈ comment, ¬(x = '\n' ∨ x = '\r')) :
    gettok (initLex junk ('#' :: (comment ++ '\n' :: rest))) = gettok (initLex junk rest) := by
  have hsp : skipSpaces (some ' ') ('#' :: (comment ++ '\n' :: rest))
      = (some '#', comment ++ '\n' :: rest) := by
    rw [skipSpaces_cons_space _ _ _ (by rfl)]
    exact skipSpaces_stop _ _ (by rfl)
  have step1 : gettok (initLex junk ('#' :: (comment ++ '\n' :: rest)))
      = gettokF ('#' :: (comment ++ '\n' :: rest)).length ⟨some '\n', rest, "", 0, junk⟩ := by
    simp [gettok, initLex, gettokF, hsp, skipComment_through_newline comment rest h,
      isalpha, isdigit]
  rw [step1,
    gettokF_fuel_irrel rest.length ⟨some '\n', rest, "", 0, junk⟩ _ (rest.length + 1) rfl
      (by simp; omega) (by omega),
    gettokF_space_swap rest.length '\n' ' ' rest "" 0 junk (by decide) (by decide)]
  rfl

/-! ## Claim theorems -/

/-- C1: the claim says `gettok` sets `NumVal` to `strtod` of exactly the
numeric literal text, e.g. `"3.14"` yields `3.14`.  The number token is
returned as claimed, but the source fills `NumStr` starting at index 1
and leaves the uninitialized stack byte `NumStr[0]` in front of the
literal, so `strtod` parses that indeterminate byte first: when the byte
is non-numeric garbage (here `'x'`), `strtod("x3.14")` performs no
conversion and `NumVal` becomes `0`, not `3.14` (`= 314/100`).  Only
when the indeterminate byte happens to be benign (e.g. `'0'`) does
`NumVal` equal the claimed value. -/
theorem gettok_number_numval_bug :
    (gettok (initLex 'x' "3.14".toList)).1 = tok_number ∧
    (gettok (initLex 'x' "3.14".toList)).2.numVal = 0 ∧
    strtodM "3.14".toList = mkRat 314 100 ∧
    (gettok (initLex 'x' "3.14".toList)).2.numVal ≠ strtodM "3.14".toList ∧
    (gettok (initLex '0' "3.14".toList)).2.numVal = mkRat 314 100 := by
  refine ⟨rfl, rfl, rfl, ?_, rfl⟩
  decide

/-- C2: the claim says `"1 + 2 * 3"` parses to
`BinaryOp('+', 1, BinaryOp('*', 2, 3))` and `"1 * 2 + 3"` to
`BinaryOp('+', BinaryOp('*', 1, 2), 3)`.  The precedence structure is
exactly as claimed, but the literal values are corrupted by the
uninitialized `NumStr[0]` byte (see C1): with a garbage byte `'x'` every
literal parses to `0`, so the produced AST is not the claimed one.  With
a benign byte (`'0'`) the claimed ASTs appear verbatim. -/
theorem parse_precedence_numval_bug :
    (ParseExpression 32 (initP 'x' "1 + 2 * 3")).1 =
      .ok (.binary '+' (.num 0) (.binary '*' (.num 0) (.num 0))) ∧
    (ParseExpression 32 (initP 'x' "1 * 2 + 3")).1 =
      .ok (.binary '+' (.binary '*' (.num 0) (.num 0)) (.num 0)) ∧
    (Expr.num 0 ≠ Expr.num 1) ∧
    (ParseExpression 32 (initP '0' "1 + 2 * 3")).1 =
      .ok (.binary '+' (.num 1) (.binary '*' (.num 2) (.num 3))) ∧
    (ParseExpression 32 (initP '0' "1 * 2 + 3")).1 =
      .ok (.binary '+' (.binary '*' (.num 1) (.num 2)) (.num 3)) := by
  refine ⟨rfl, rfl, ?_, rfl, rfl⟩
  intro h
  injection h with hv
  exact absurd hv (by norm_num)

/-- C3: the claim says `"1 - 2 - 3"` parses left-associated to
`BinaryOp('-', BinaryOp('-', 1, 2), 3)`.  The association is left, as
claimed, but the literal values are corrupted by the uninitialized
`NumStr[0]` byte (see C1): with a garbage byte `'x'` every literal is
`0`.  With a benign byte (`'0'`) the claimed AST appears verbatim. -/
theorem parse_left_assoc_numval_bug :
    (ParseExpression 32 (initP 'x' "1 - 2 - 3")).1 =
      .ok (.binary '-' (.binary '-' (.num 0) (.num 0)) (.num 0)) ∧
    (Expr.num 0 ≠ Expr.num 2) ∧
    (ParseExpression 32 (initP '0' "1 - 2 - 3")).1 =
      .ok (.binary '-' (.binary '-' (.num 1) (.num 2)) (.num 3)) := by
  refine ⟨rfl, ?_, rfl⟩
  intro h
  injection h with hv
  exact absurd hv (by norm_num)

/-- C6: the claim says a bare identifier yields `VariableRef`, that
`"foo(1, 2+3)"` yields `Call("foo", [1, BinaryOp('+', 2, 3)])` with two
arguments in source order, and `"foo()"` yields `Call("foo", [])`.  The
variable case, the call structure, the argument count/order and the
empty call are exactly as claimed, but the numeric argument values are
corrupted by the uninitialized `NumStr[0]` byte (see C1): with a garbage
byte `'x'` the arguments parse as `0`.  With a benign byte (`'0'`) the
claimed AST appears verbatim. -/
theorem parse_identifier_call_numval_bug :
    (ParseExpression 32 (initP 'x' "bar")).1 = .ok (.var "bar") ∧
    (ParseExpression 32 (initP 'x' "foo(1, 2+3)")).1 =
      .ok (.call "foo" [.num 0, .binary '+' (.num 0) (.num 0)]) ∧
    (ParseExpression 32 (initP '0' "foo(1, 2+3)")).1 =
      .ok (.call "foo" [.num 1, .binary '+' (.num 2) (.num 3)]) ∧
    [Expr.num 1, Expr.binary '+' (Expr.num 2) (Expr.num 3)].length = 2 ∧
    (ParseExpression 32 (initP 'x' "foo()")).1 = .ok (.call "foo" []) ∧
    (Expr.num 0 ≠ Expr.num 1) := by
  refine ⟨rfl, rfl, rfl, rfl, rfl, ?_⟩
  intro h
  injection h with hv
  exact absurd hv (by norm_num)

/-- C4: for any string matching `[a-zA-Z][a-zA-Z0-9]*` of length at most
63 presented at the start of a token, `gettok` fills `IdentifierStr`
with exactly that text and returns `tok_identifier` — unless the text is
exactly (case-sensitively) `"def"` or `"extern"`, in which case the
corresponding keyword token is returned instead (with the buffer still
holding the text).  `rest` is the remainder of the stream; its first
character, if any, must not be alphanumeric (the lexer consumes the
maximal alphanumeric run). -/
theorem gettok_identifier_spec (c : Char) (cs rest : List Char)
    (ident0 : String) (num0 : Rat) (junk : Char)
    (hc : isalpha c = true)
    (hcs : ∀ x ∈ cs, isalnum x = true)
    (_hlen : (c :: cs).length ≤ 63)
    (hrest : ∀ d, rest.head? = some d → isalnum d = false) :
    (gettok ⟨some ' ', c :: (cs ++ rest), ident0, num0, junk⟩).2.identifierStr =
      String.mk (c :: cs) ∧
    (gettok ⟨some ' ', c :: (cs ++ rest), ident0, num0, junk⟩).1 =
      (if String.mk (c :: cs) = "def" then tok_def
       else if String.mk (c :: cs) = "extern" then tok_external
       else tok_identifier) := by
  have hsp : skipSpaces (some ' ') (c :: (cs ++ rest)) = (some c, cs ++ rest) := by
    rw [skipSpaces_cons_space _ _ _ (by rfl)]
    exact skipSpaces_stop _ _ (by simp [lcIsSpace, isalpha_not_isspace hc])
  simp only [gettok, gettokF, hsp, takeAlnum_append cs rest hcs hrest, hc]
  split_ifs <;> simp

/-- C4 witness: the identifier `"ab"` (followed by a space) lexes to
`tok_identifier` with `IdentifierStr = "ab"`. -/
theorem gettok_identifier_spec_witness :
    (gettok ⟨some ' ', 'a' :: (['b'] ++ [' ']), "", 0, 'x'⟩).2.identifierStr =
      String.mk ['a', 'b'] ∧
    (gettok ⟨some ' ', 'a' :: (['b'] ++ [' ']), "", 0, 'x'⟩).1 =
      (if String.mk ['a', 'b'] = "def" then tok_def
       else if String.mk ['a', 'b'] = "extern" then tok_external
       else tok_identifier) :=
  gettok_identifier_spec 'a' ['b'] [' '] "" 0 'x' (by decide) (by decide) (by decide)
    (by intro d hd; cases hd; decide)

/-- C5: with the table installed by `main`, `GetTokPrecedence` yields 10
for `'<'`, 20 for `'+'`, 30 for `'-'`, 40 for `'*'`, and the sentinel
`-1` for every other token value: negative keyword/identifier/number/eof
sentinels and values above 127 fail the `isascii` test, and every other
ASCII value misses the table scan. -/
theorem GetTokPrecedence_spec (t : Int) :
    GetTokPrecedence t =
      if t = chTok '<' then 10
      else if t = chTok '+' then 20
      else if t = chTok '-' then 30
      else if t = chTok '*' then 40
      else -1 := by
  simp only [chTok_lt, chTok_plus, chTok_minus, chTok_star]
  by_cases h1 : t = 60
  · subst h1; decide
  by_cases h2 : t = 43
  · subst h2; decide
  by_cases h3 : t = 45
  · subst h3; decide
  by_cases h4 : t = 42
  · subst h4; decide
  rw [if_neg h1, if_neg h2, if_neg h3, if_neg h4]
  unfold GetTokPrecedence binopTable
  by_cases ha : isasciiTok t
  · simp only [ha, not_true_eq_false, if_false, precScan, chTok_lt, chTok_plus, chTok_minus,
      chTok_star]
    rw [if_neg h1, if_neg h2, if_neg h3, if_neg h4]
  · simp [ha]

/-- C8: whenever `ParseTopLevelExpr` succeeds, the returned
`FunctionAST` has the prototype name `__anon_expr`, an empty parameter
list, and as body exactly the expression parsed by `ParseExpression` on
the same state. -/
theorem ParseTopLevelExpr_anon (fuel : Nat) (st : PState) (f : FunctionAST)
    (h : (ParseTopLevelExpr (fuel + 1) st).1 = .ok f) :
    f.proto.name = "__anon_expr" ∧ f.proto.args = [] ∧
    (ParseExpression fuel st).1 = .ok f.body := by
  simp only [ParseTopLevelExpr] at h
  rcases hE : ParseExpression fuel st with ⟨r, st1⟩
  rw [hE] at h
  cases r with
  | ok e =>
    simp only [PRes.ok.injEq] at h
    subst h
    exact ⟨rfl, rfl, rfl⟩
  | err => simp at h
  | fuelOut => simp at h

/-- C8 witness: on input `"x"` the top-level parse succeeds and the
theorem applies with the concrete anonymous function. -/
theorem ParseTopLevelExpr_anon_witness :
    (FunctionAST.mk ⟨"__anon_expr", []⟩ (Expr.var "x")).proto.name = "__anon_expr" ∧
    (FunctionAST.mk ⟨"__anon_expr", []⟩ (Expr.var "x")).proto.args = [] ∧
    (ParseExpression 32 (initP 'x' "x")).1 =
      .ok (FunctionAST.mk ⟨"__anon_expr", []⟩ (Expr.var "x")).body :=
  ParseTopLevelExpr_anon 32 (initP 'x' "x") ⟨⟨"__anon_expr", []⟩, .var "x"⟩ (by rfl)

theorem getNextToken_log (st : PState) : (getNextToken st).log = st.log := rfl

theorem emitError_log (msg : String) (st : PState) :
    (emitError msg st).log = st.log ++ ["Error: " ++ msg] := rfl

theorem ResLog_err_emit {α : Type} (msg : String) (st : PState) (log : List String)
    (h : st.log = log) : ResLog (PRes.err : PRes α) log (emitError msg st).log :=
  ⟨"Error: " ++ msg, by rw [emitError_log, h], ⟨msg, rfl⟩⟩

theorem ResLog_shift {α : Type} {r : PRes α} {l1 l2 l3 : List String}
    (h12 : l2 = l1) (h : ResLog r l2 l3) : ResLog r l1 l3 := h12 ▸ h

/-- Log discipline of the mutually recursive expression parsers: each
call either leaves the diagnostics log unchanged (success / fuel-out) or
appends exactly one `Error: ` line (failure). -/
theorem parser_log_invariant (fuel : Nat) :
    (∀ st, ResLog (ParseParenExpr fuel st).1 st.log (ParseParenExpr fuel st).2.log) ∧
    (∀ st, ResLog (ParseIdentifierExpr fuel st).1 st.log (ParseIdentifierExpr fuel st).2.log) ∧
    (∀ st acc, ResLog (ParseCallArgs fuel st acc).1 st.log (ParseCallArgs fuel st acc).2.log) ∧
    (∀ st, ResLog (ParsePrimary fuel st).1 st.log (ParsePrimary fuel st).2.log) ∧
    (∀ p lhs st, ResLog (ParseBinOpRHS fuel p lhs st).1 st.log
      (ParseBinOpRHS fuel p lhs st).2.log) ∧
    (∀ st, ResLog (ParseExpression fuel st).1 st.log (ParseExpression fuel st).2.log) := by
  induction fuel with
  | zero =>
    exact ⟨fun st => rfl, fun st => rfl, fun st acc => rfl, fun st => rfl,
      fun p lhs st => rfl, fun st => rfl⟩
  | succ n ih =>
    obtain ⟨ihParen, ihIdent, ihArgs, ihPrim, ihRHS, ihExpr⟩ := ih
    refine ⟨?_, ?_, ?_, ?_, ?_, ?_⟩
    · -- ParseParenExpr
      intro st
      simp only [ParseParenExpr]
      rcases hE2 : ParseExpression n (getNextToken st) with ⟨r, st2⟩
      have hE := ihExpr (getNextToken st)
      rw [hE2] at hE
      cases r with
      | ok v =>
        dsimp only
        split_ifs with hp
        · exact hE
        · exact ResLog_err_emit _ st2 st.log hE
      | err => exact hE
      | fuelOut => exact hE
    · -- ParseIdentifierExpr
      intro st
      simp only [ParseIdentifierExpr]
      split_ifs with h1 h2
      · rfl
      · rfl
      · rcases hA : ParseCallArgs n (getNextToken (getNextToken st)) [] with ⟨r, st3⟩
        have hL := ihArgs (getNextToken (getNextToken st)) []
        rw [hA] at hL
        cases r with
        | ok args => exact hL
        | err => exact hL
        | fuelOut => exact hL
    · -- ParseCallArgs
      intro st acc
      simp only [ParseCallArgs]
      rcases hE2 : ParseExpression n st with ⟨r, st1⟩
      have hE := ihExpr st
      rw [hE2] at hE
      cases r with
      | ok arg =>
        dsimp only
        split_ifs with h1 h2
        · exact hE
        · exact ResLog_err_emit _ st1 st.log hE
        · rcases hA : ParseCallArgs n (getNextToken st1) (acc ++ [arg]) with ⟨r2, st2⟩
          have hR := ihArgs (getNextToken st1) (acc ++ [arg])
          rw [hA] at hR
          exact ResLog_shift (show st1.log = st.log from hE) hR
      | err => exact hE
      | fuelOut => exact hE
    · -- ParsePrimary
      intro st
      simp only [ParsePrimary]
      split_ifs with h1 h2 h3
      · exact ihIdent st
      · rfl
      · exact ihParen st
      · exact ResLog_err_emit _ st st.log rfl
    · -- ParseBinOpRHS
      intro p lhs st
      simp only [ParseBinOpRHS]
      split_ifs with h1
      · rfl
      · rcases hP : ParsePrimary n (getNextToken st) with ⟨r, st2⟩
        have hPr := ihPrim (getNextToken st)
        rw [hP] at hPr
        cases r with
        | ok rhs0 =>
          dsimp only
          split_ifs with h2
          · rcases hR : ParseBinOpRHS n (GetTokPrecedence st.curTok + 1) rhs0 st2
              with ⟨r2, st3⟩
            have hR2 := ihRHS (GetTokPrecedence st.curTok + 1) rhs0 st2
            rw [hR] at hR2
            cases r2 with
            | ok rhs1 =>
              dsimp only
              have hT := ihRHS p (.binary (Char.ofNat st.curTok.toNat) lhs rhs1) st3
              refine ResLog_shift ?_ hT
              rw [show st3.log = st2.log from hR2, show st2.log = st.log from hPr]
            | err => exact ResLog_shift (show st2.log = st.log from hPr) hR2
            | fuelOut => exact ResLog_shift (show st2.log = st.log from hPr) hR2
          · have hT := ihRHS p (.binary (Char.ofNat st.curTok.toNat) lhs rhs0) st2
            exact ResLog_shift (show st2.log = st.log from hPr) hT
        | err => exact hPr
        | fuelOut => exact hPr
    · -- ParseExpression
      intro st
      simp only [ParseExpression]
      rcases hP : ParsePrimary n st with ⟨r, st1⟩
      have hPr := ihPrim st
      rw [hP] at hPr
      cases r with
      | ok lhs =>
        dsimp only
        exact ResLog_shift (show st1.log = st.log from hPr) (ihRHS 0 lhs st1)
      | err => exact hPr
      | fuelOut => exact hPr

/-- The parameter-name loop never fails and never writes to the log. -/
theorem ParseProtoArgs_log (fuel : Nat) : ∀ (st : PState) (acc : List String),
    (ParseProtoArgs fuel st acc).2.log = st.log ∧
    (ParseProtoArgs fuel st acc).1 ≠ PRes.err := by
  induction fuel with
  | zero => exact fun st acc => ⟨rfl, by simp [ParseProtoArgs]⟩
  | succ n ih =>
    intro st acc
    simp only [ParseProtoArgs]
    split_ifs with h1
    · exact ih (getNextToken st) (acc ++ [(getNextToken st).lex.identifierStr])
    · exact ⟨rfl, by simp⟩

theorem ParsePrototype_log (fuel : Nat) (st : PState) :
    ResLog (ParsePrototype fuel st).1 st.log (ParsePrototype fuel st).2.log := by
  cases fuel with
  | zero => rfl
  | succ n =>
    simp only [ParsePrototype]
    split_ifs with h1 h2
    · exact ResLog_err_emit _ st st.log rfl
    · exact ResLog_err_emit _ (getNextToken st) st.log rfl
    · rcases hA : ParseProtoArgs n (getNextToken st) [] with ⟨r, st2⟩
      have hL := ParseProtoArgs_log n (getNextToken st) []
      rw [hA] at hL
      obtain ⟨hlog, hne⟩ := hL
      cases r with
      | ok args =>
        dsimp only
        split_ifs with h3
        · exact ResLog_err_emit _ st2 st.log hlog
        · exact hlog
      | err => exact absurd rfl hne
      | fuelOut => exact hlog

theorem ParseDefinition_log (fuel : Nat) (st : PState) :
    ResLog (ParseDefinition fuel st).1 st.log (ParseDefinition fuel st).2.log := by
  cases fuel with
  | zero => rfl
  | succ n =>
    simp only [ParseDefinition]
    rcases hP : ParsePrototype n (getNextToken st) with ⟨r, st2⟩
    have hPr := ParsePrototype_log n (getNextToken st)
    rw [hP] at hPr
    cases r with
    | ok proto =>
      dsimp only
      rcases hE : ParseExpression n st2 with ⟨r2, st3⟩
      have hEx := (parser_log_invariant n).2.2.2.2.2 st2
      rw [hE] at hEx
      cases r2 with
      | ok e =>
        dsimp only
        show st3.log = st.log
        rw [show st3.log = st2.log from hEx, show st2.log = st.log from hPr]
      | err => exact ResLog_shift (show st2.log = st.log from hPr) hEx
      | fuelOut => exact ResLog_shift (show st2.log = st.log from hPr) hEx
    | err => exact hPr
    | fuelOut => exact hPr

theorem ParseTopLevelExpr_log (fuel : Nat) (st : PState) :
    ResLog (ParseTopLevelExpr fuel st).1 st.log (ParseTopLevelExpr fuel st).2.log := by
  cases fuel with
  | zero => rfl
  | succ n =>
    simp only [ParseTopLevelExpr]
    rcases hE : ParseExpression n st with ⟨r, st1⟩
    have hEx := (parser_log_invariant n).2.2.2.2.2 st
    rw [hE] at hEx
    cases r with
    | ok e => exact hEx
    | err => exact hEx
    | fuelOut => exact hEx

theorem ParseExternal_log (fuel : Nat) (st : PState) :
    ResLog (ParseExternal fuel st).1 st.log (ParseExternal fuel st).2.log := by
  cases fuel with
  | zero => rfl
  | succ n =>
    simp only [ParseExternal]
    exact ParsePrototype_log n (getNextToken st)

/-- C7: on every input, when a top-level parse (definition, extern, or
expression) fails, the failure is the `NULL` result `PRes.err` — it
carries no AST node, every function on the recursive-descent chain
having propagated `NULL` — and exactly one line of the form
`Error: <description>` has been appended to the diagnostics stream. -/
theorem toplevel_parse_error_behaviour (fuel : Nat) (st : PState) :
    ((ParseDefinition fuel st).1 = .err →
      ∃ l, (ParseDefinition fuel st).2.log = st.log ++ [l] ∧ ∃ d, l = "Error: " ++ d) ∧
    ((ParseExternal fuel st).1 = .err →
      ∃ l, (ParseExternal fuel st).2.log = st.log ++ [l] ∧ ∃ d, l = "Error: " ++ d) ∧
    ((ParseTopLevelExpr fuel st).1 = .err →
      ∃ l, (ParseTopLevelExpr fuel st).2.log = st.log ++ [l] ∧ ∃ d, l = "Error: " ++ d) := by
  refine ⟨fun herr => ?_, fun herr => ?_, fun herr => ?_⟩
  · have h := ParseDefinition_log fuel st
    rw [herr] at h
    exact h
  · have h := ParseExternal_log fuel st
    rw [herr] at h
    exact h
  · have h := ParseTopLevelExpr_log fuel st
    rw [herr] at h
    exact h

/-- C7 witness: the invalid definition `"def 1 2"` fails and leaves
exactly one `Error: ` line in the (initially empty) diagnostics log. -/
theorem toplevel_parse_error_behaviour_witness :
    ∃ l, (ParseDefinition 33 (initP 'x' "def 1 2")).2.log = [] ++ [l] ∧
      ∃ d, l = "Error: " ++ d :=
  (toplevel_parse_error_behaviour 33 (initP 'x' "def 1 2")).1 (by rfl)

/-- C9: prefixing any input stream with a `'#'` comment line produces
exactly the same token sequence (tokens together with the shared
`IdentifierStr`/`NumVal` values after each call); and when end of input
is reached inside a comment, `gettok` returns `tok_eof` instead of
retrying.  `comment` is the comment body (no newline characters). -/
theorem gettok_comment_skip (junk : Char) (comment rest : List Char) (n : Nat)
    (h : ∀ x ∈ comment, ¬(x = '\n' ∨ x = '\r')) :
    lexAll n (initLex junk ('#' :: (comment ++ '\n' :: rest))) =
      lexAll n (initLex junk rest) ∧
    (gettok (initLex junk ('#' :: comment))).1 = tok_eof := by
  constructor
  · cases n with
    | zero => rfl
    | succ m => simp only [lexAll, gettok_comment_prefix junk comment rest h]
  · have hsp : skipSpaces (some ' ') ('#' :: comment) = (some '#', comment) := by
      rw [skipSpaces_cons_space _ _ _ (by rfl)]
      exact skipSpaces_stop _ _ (by rfl)
    simp [gettok, initLex, gettokF, hsp, skipComment_no_newline comment h, isalpha, isdigit]

/-- C9 witness: `"# c\n42"` lexes exactly like `"42"`, and a comment
running into end of input yields `tok_eof`. -/
theorem gettok_comment_skip_witness :
    lexAll 4 (initLex 'x' ('#' :: ((' ' :: ['c']) ++ '\n' :: "42".toList))) =
      lexAll 4 (initLex 'x' "42".toList) ∧
    (gettok (initLex 'x' ('#' :: (' ' :: ['c'])))).1 = tok_eof :=
  gettok_comment_skip 'x' (' ' :: ['c']) "42".toList 4 (by decide)

/-- C10: parenthesization is AST-transparent.  Forward direction:
whenever `ParseParenExpr` succeeds it returns exactly the node produced
by the inner `ParseExpression` call after eating `'('` — no wrapper node
exists.  Backward direction: whenever the inner expression parse
succeeds and stops at `')'`, `ParseParenExpr` succeeds with precisely
that node, so `(e)` and `e` yield identical ASTs. -/
theorem ParseParenExpr_transparent (fuel : Nat) (st : PState) :
    (∀ v, (ParseParenExpr (fuel + 1) st).1 = .ok v →
       ∃ st2, ParseExpression fuel (getNextToken st) = (.ok v, st2) ∧
         st2.curTok = chTok ')' ∧
         (ParseParenExpr (fuel + 1) st).2 = getNextToken st2) ∧
    (∀ v st2, ParseExpression fuel (getNextToken st) = (.ok v, st2) →
       st2.curTok = chTok ')' →
       ParseParenExpr (fuel + 1) st = (.ok v, getNextToken st2)) := by
  constructor
  · intro v h
    simp only [ParseParenExpr] at h ⊢
    rcases hE : ParseExpression fuel (getNextToken st) with ⟨r, st2⟩
    rw [hE] at h
    cases r with
    | ok w =>
      by_cases hp : st2.curTok = chTok ')'
      · simp only [hp, if_true, reduceIte, PRes.ok.injEq] at h
        subst h
        exact ⟨st2, rfl, hp, by simp [hp]⟩
      · simp [hp] at h
    | err => simp at h
    | fuelOut => simp at h
  · intro v st2 hE hp
    simp only [ParseParenExpr, hE]
    simp [hp]

/-- C10 witness: on `"(y)"` the parenthesized parse succeeds, returning
exactly the inner `VariableRef` node. -/
theorem ParseParenExpr_transparent_witness :
    ∃ st2, ParseExpression 32 (getNextToken (initP 'x' "(y)")) = (.ok (.var "y"), st2) ∧
      st2.curTok = chTok ')' ∧
      (ParseParenExpr 33 (initP 'x' "(y)")).2 = getNextToken st2 :=
  (ParseParenExpr_transparent 32 (initP 'x' "(y)")).1 (.var "y") (by rfl)

end Silly
